import Mathlib

/-!
Verification of the aggregation and ranking engine of the aircall-slack-stats
repository (`aircall_sdr_stats.py` and `aircall-slack-leaderboard.py`).

The Python scripts are shallowly embedded: JSON field values are modelled by
`Value` (null, integer, or string), Python truthiness by `truthy`, and `int(x)`
conversion by `pyInt` (returning `Option.none` where Python raises
`TypeError`/`ValueError`).  The per-record aggregation loop, the stable
descending sort performed by Python's `sorted(..., reverse=True)`, the sad-face
selection, `pick_lowest_with_dials_gt_zero`, and the report rendering are each
translated as executable Lean functions.
-/

namespace Aircall

/-- A JSON field value as the scripts see it: `null`/absent, an integer, or a
string.  `Value.none` models both an absent key and an explicit `null`, since
`dict.get` returns `None` for both. -/
inductive Value where
  | none : Value
  | int (n : Int) : Value
  | str (s : String) : Value
deriving DecidableEq, Repr

/-- Python truthiness for the values above: `None` and `0` and `""` are falsy,
everything else truthy.  This is the test `if not x:` performs. -/
def truthy : Value → Bool
  | Value.none => false
  | Value.int n => n != 0
  | Value.str s => s != ""

/-- Parse a list of decimal digit characters; `Option.none` when empty or a
non-digit appears.  Used to model Python `int(string)`. -/
def parseDigits : List Char → Option Nat
  | [] => Option.none
  | cs => cs.foldl
      (fun acc c =>
        match acc with
        | Option.none => Option.none
        | Option.some n => if c.isDigit then Option.some (n * 10 + (c.toNat - 48)) else Option.none)
      (Option.some 0)

/-- Python `int(x)` on a `Value`: an `int` converts to itself, a decimal string
(optionally signed) parses, anything else (including `None`, which raises
`TypeError`, and a non-numeric string, which raises `ValueError`) is
`Option.none`. -/
def pyInt : Value → Option Int
  | Value.none => Option.none
  | Value.int n => Option.some n
  | Value.str s =>
    match s.data with
    | '-' :: rest => (parseDigits rest).map (fun n => -(n : Int))
    | cs => (parseDigits cs).map (fun n => (n : Int))

/-- One call record, with the fields the scripts read.  `user_id` models
`(c.get("user") or \x7b\x7d).get("id")`: `Option.none` when the `user` object or
its `id` is absent. -/
structure CallRecord where
  started_at : Value
  answered_at : Value
  ended_at : Value
  user_id : Option Nat
  direction : Value
deriving DecidableEq, Repr

/-- Function `talk_seconds` from both scripts: zero when `answered_at` or `ended_at` is
falsy, zero when `int()` on either raises, otherwise `max(0, e - a)`. -/
def talk_seconds (c : CallRecord) : Int :=
  if ¬ truthy c.answered_at ∨ ¬ truthy c.ended_at then 0
  else
    match pyInt c.answered_at, pyInt c.ended_at with
    | Option.some a, Option.some e => max 0 (e - a)
    | _, _ => 0

/-- The per-agent accumulator of `aircall_sdr_stats.py` (the leaderboard
variant omits `total_calls` but is otherwise identical). -/
structure AgentStats where
  outbound : Nat
  inbound : Nat
  total_calls : Nat
  talk_s_total : Int
deriving DecidableEq, Repr

/-- The zero-valued accumulator each roster agent starts with. -/
def zeroStats : AgentStats := ⟨0, 0, 0, 0⟩

/-- The stats dictionary: keyed by agent id, present exactly for roster ids. -/
def Stats : Type := Nat → Option AgentStats

/-- Python `stats = \x7bsid: \x7b...zeros...\x7d for sid in SDR_IDS\x7d`. -/
def initStats (roster : List Nat) : Stats :=
  fun sid => if roster.contains sid then Option.some zeroStats else Option.none

/-- The body of the per-record update once a record qualifies: bump the
directional counter for `"outbound"`/`"inbound"` (an `elif` chain, so at most
one), then always bump `total_calls` and add `talk_seconds`. -/
def accrue (c : CallRecord) (st : AgentStats) : AgentStats :=
  let st1 :=
    if c.direction = Value.str "outbound" then { st with outbound := st.outbound + 1 }
    else if c.direction = Value.str "inbound" then { st with inbound := st.inbound + 1 }
    else st
  { st1 with total_calls := st1.total_calls + 1,
             talk_s_total := st1.talk_s_total + talk_seconds c }

/-- The outbound increment a record carries: `1` exactly when its direction is
the string `"outbound"`. -/
def dOut (c : CallRecord) : Nat := if c.direction = Value.str "outbound" then 1 else 0

/-- The inbound increment a record carries: `1` exactly when its direction is
the string `"inbound"` (the `elif` branch). -/
def dIn (c : CallRecord) : Nat := if c.direction = Value.str "inbound" then 1 else 0

/-- Update `stats[uid] += ...`: update the accumulator at `uid`, leave others alone. -/
def updateStats (s : Stats) (uid : Nat) (c : CallRecord) : Stats :=
  fun sid => if sid = uid then (s sid).map (accrue c) else s sid

/-- One iteration of the `for c in calls` loop of `main`: skip on falsy
`started_at`; `int(started_at)` raises (uncaught) on a truthy non-numeric
value; skip when the start instant is strictly outside `[ws, we]`; skip when
the user id is absent or not in the roster; otherwise accrue. -/
def processCall (roster : List Nat) (ws we : Int) (s : Stats) (c : CallRecord) :
    Except String Stats :=
  if ¬ truthy c.started_at then Except.ok s
  else
    match pyInt c.started_at with
    | Option.none => Except.error "ValueError: invalid literal for int()"
    | Option.some t =>
      if t < ws ∨ t > we then Except.ok s
      else
        match c.user_id with
        | Option.none => Except.ok s
        | Option.some uid =>
          if ¬ roster.contains uid then Except.ok s
          else Except.ok (updateStats s uid c)

/-- The `for c in calls` loop over one page: process records in order, an
uncaught exception aborts the run. -/
def processCalls (roster : List Nat) (ws we : Int) : Stats → List CallRecord → Except String Stats
  | s, [] => Except.ok s
  | s, c :: cs =>
    match processCall roster ws we s c with
    | Except.error e => Except.error e
    | Except.ok s2 => processCalls roster ws we s2 cs

/-- The pagination loop: consume pages in order, stopping at the first empty
page (`if not calls: break`); the `next_page_link` stop is modelled by the end
of the page list. -/
def processPages (roster : List Nat) (ws we : Int) : Stats → List (List CallRecord) → Except String Stats
  | s, [] => Except.ok s
  | s, p :: ps =>
    if p.isEmpty then Except.ok s
    else
      match processCalls roster ws we s p with
      | Except.error e => Except.error e
      | Except.ok s2 => processPages roster ws we s2 ps

/-- The qualification test the loop body performs, as a function of the record
alone: the agent id the record accrues to, or `Option.none` when any of the
skip conditions applies.  (Not defined for records whose `started_at` is a
truthy non-numeric value — those abort the run; see `badStart`.) -/
def qualUid (roster : List Nat) (ws we : Int) (c : CallRecord) : Option Nat :=
  if ¬ truthy c.started_at then Option.none
  else
    match pyInt c.started_at with
    | Option.none => Option.none
    | Option.some t =>
      if t < ws ∨ t > we then Option.none
      else
        match c.user_id with
        | Option.none => Option.none
        | Option.some uid =>
          if ¬ roster.contains uid then Option.none else Option.some uid

/-- A record on which `int(started_at)` raises: truthy but non-numeric. -/
def badStart (c : CallRecord) : Bool :=
  truthy c.started_at && (pyInt c.started_at).isNone

/-- The loop body as a pure state transformer, defined for records that do not
abort: accrue to the qualifying agent, or leave the stats unchanged. -/
def pureStep (roster : List Nat) (ws we : Int) (s : Stats) (c : CallRecord) : Stats :=
  match qualUid roster ws we c with
  | Option.some uid => updateStats s uid c
  | Option.none => s

/-- Whether a record contributes to agent `sid`'s stats. -/
def contributesTo (roster : List Nat) (ws we : Int) (c : CallRecord) (sid : Nat) : Bool :=
  qualUid roster ws we c == Option.some sid

/-- A roster entry: `{"id": ..., "name": ...}`. -/
structure Agent where
  id : Nat
  name : String
deriving DecidableEq, Repr

/-- The roster of `aircall-slack-leaderboard.py` (`SDRS`). -/
def SDRS_L : List Agent :=
  [⟨1811979, "Jeremy"⟩, ⟨1731824, "Dale"⟩, ⟨1731637, "Ryan"⟩, ⟨1731817, "Candice"⟩,
   ⟨1731818, "Marcia"⟩, ⟨1731822, "Steve"⟩, ⟨1731823, "Jake (UK)"⟩]

/-- Constant `SAD_FACE_EXEMPT_IDS` of the leaderboard script. -/
def SAD_FACE_EXEMPT_IDS : List Nat := [1731823]

/-- The roster of `aircall_sdr_stats.py` (`SDRS`, six agents). -/
def SDRS_S : List Agent :=
  [⟨1811979, "Jeremy"⟩, ⟨1731824, "Dale"⟩, ⟨1731637, "Ryan"⟩, ⟨1731817, "Candice"⟩,
   ⟨1731818, "Marcia"⟩, ⟨1731822, "Steve"⟩]

/-- The iteration order of the Python set `SDR_IDS` in `aircall_sdr_stats.py`.
CPython iterates a set of small ints in hash-table slot order: after the six
inserts the table has 32 slots, `hash(id) = id`, and the slots `id mod 32` are
9, 10, 11, 14, 16, 21 with no collisions, so iteration yields Candice (1731817),
Marcia (1731818), Jeremy (1811979), Steve (1731822), Dale (1731824),
Ryan (1731637) — not the roster declaration order. -/
def SDR_IDS_iterOrder : List Nat :=
  [1731817, 1731818, 1811979, 1731822, 1731824, 1731637]

/-- Stable insertion for a descending sort: `x` (coming earlier in the input)
is placed before every element whose key is `≤` its own, matching the output of
Python's stable `sorted(..., reverse=True)`. -/
def insDesc {α : Type} (key : α → Int) (x : α) : List α → List α
  | [] => [x]
  | y :: ys => if key y ≤ key x then x :: y :: ys else y :: insDesc key x ys

/-- Python `sorted(l, key=key, reverse=True)`: descending, stable (insertion
sort is stable, and stability plus sortedness pins the output uniquely). -/
def sortDescBy {α : Type} (key : α → Int) (l : List α) : List α :=
  l.foldr (insDesc key) []

/-- Python `leaderboard = sorted(SDRS, key=lambda u: stats[u["id"]]["talk_s_total"], reverse=True)`;
the talk totals are abstracted as a function of the agent id. -/
def leaderboardL (talk : Nat → Int) : List Agent :=
  sortDescBy (fun u => talk u.id) SDRS_L

/-- Python `leaderboard = sorted(SDR_IDS, key=lambda sid: stats[sid]["talk_s_total"], reverse=True)`
of `aircall_sdr_stats.py`: the sort input is the id set, so the stable sort
preserves the set's iteration order among ties, not roster declaration order. -/
def leaderboardS (talk : Nat → Int) : List Nat :=
  sortDescBy talk SDR_IDS_iterOrder

/-- Python `eligible = [u for u in leaderboard if u["id"] not in SAD_FACE_EXEMPT_IDS]`. -/
def eligibleL (talk : Nat → Int) : List Agent :=
  (leaderboardL talk).filter (fun u => ¬ SAD_FACE_EXEMPT_IDS.contains u.id)

/-- Python `sad_face_id = eligible[-1]["id"] if eligible else None`. -/
def sadFaceId (talk : Nat → Int) : Option Nat :=
  (eligibleL talk).getLast?.map Agent.id

/-- Python `min(l, key=key)`: the first element attaining the minimum key
(later elements replace the accumulator only on a strictly smaller key). -/
def pyMinBy {α : Type} (key : α → Int) : List α → Option α
  | [] => Option.none
  | x :: xs => Option.some (xs.foldl (fun acc y => if key y < key acc then y else acc) x)

/-- The `low` binding of `pick_lowest_with_dials_gt_zero`: among leaderboard
agents that are not exempt and have `out_total > 0`, the one with minimal
`talk_s_total` (`None` when none qualifies). -/
def pickLowestAgent (lb : List Agent) (talk : Nat → Int) (out : Nat → Nat)
    (exempt : List Nat) : Option Agent :=
  let eligible := lb.filter (fun u => ¬ exempt.contains u.id ∧ out u.id > 0)
  pyMinBy (fun u => talk u.id) eligible

/-- Function `pick_lowest_with_dials_gt_zero`: returns the chosen agent's name and its
talk minutes (`talk_s_total // 60`), or `None`. -/
def pick_lowest_with_dials_gt_zero (lb : List Agent) (talk : Nat → Int) (out : Nat → Nat)
    (exempt : List Nat) : Option (String × Int) :=
  (pickLowestAgent lb talk out exempt).map (fun u => (u.name, Int.fdiv (talk u.id) 60))

/-- The per-agent stats the leaderboard script renders from. -/
structure LStats where
  out_total : Nat
  in_total : Nat
  talk_s_total : Int
deriving DecidableEq, Repr

/-- Constant `SCRIPT_VERSION` of the leaderboard script. -/
def SCRIPT_VERSION : String := "LEADERBOARD_V3"

/-- Python `medals = \x7b0: 🥇, 1: 🥈, 2: 🥉\x7d` with `.get(i, "")`. -/
def medal : Nat → String
  | 0 => "🥇"
  | 1 => "🥈"
  | 2 => "🥉"
  | _ => ""

/-- The header line of the leaderboard report; the two strftime outputs are
abstracted as the strings `date_str` and `upto_str`. -/
def headerLine (date_str upto_str : String) : String :=
  "<!channel> this is the current talk time stats so far today (Brisbane day) · "
    ++ date_str ++ " · up to " ++ upto_str ++ " (Brisbane) · " ++ SCRIPT_VERSION

/-- The body line built for position `i` (0-based) and agent `u`: the f-string,
then `*bold*` for the top 3, then `_underline + sad face_` for the sad-face
agent. -/
def entryLine (stats : Nat → LStats) (sadId : Option Nat) (i : Nat) (u : Agent) : String :=
  let talk_m := Int.fdiv (stats u.id).talk_s_total 60
  let line := u.name ++ " " ++ medal i ++ " : " ++ toString talk_m ++ " (mins) | "
    ++ toString (stats u.id).out_total ++ " outbound | "
    ++ toString (stats u.id).in_total ++ " inbound calls"
  let line := if i < 3 then "*" ++ line ++ "*" else line
  if sadId = Option.some u.id then "_" ++ line ++ " 😢_" else line

/-- The full `lines` list the leaderboard script posts to Slack: header, blank
separator, then one entry line per leaderboard agent, in rank order.  `main`
never calls `coaching_line`, so no commentary line is appended. -/
def renderLines (stats : Nat → LStats) (date_str upto_str : String) : List String :=
  let talk := fun sid => (stats sid).talk_s_total
  let sadId := sadFaceId talk
  headerLine date_str upto_str :: "" ::
    ((leaderboardL talk).enum.map (fun p => entryLine stats sadId p.1 p.2))

/-! ## Theorems -/

/-- The `elif` chain in `accrue` amounts to adding a per-record delta to each
field: this characterization makes commutativity of accumulation immediate. -/
theorem accrue_eq (c : CallRecord) (st : AgentStats) :
    accrue c st =
      ⟨st.outbound + dOut c, st.inbound + dIn c, st.total_calls + 1,
       st.talk_s_total + talk_seconds c⟩ := by
  unfold accrue dOut dIn
  by_cases ho : c.direction = Value.str "outbound"
  · rw [if_pos ho, if_pos ho, if_neg (by rw [ho]; decide)]
    simp
  · rw [if_neg ho, if_neg ho]
    by_cases hi : c.direction = Value.str "inbound"
    · rw [if_pos hi, if_pos hi]
      simp
    · rw [if_neg hi, if_neg hi]
      simp

/-- Claim C4: for every record, computed talk-seconds is never negative; it is
`0` whenever the answered or ended instant is missing (falsy) or non-numeric;
and whenever both are present and numeric it equals `max (0, ended − answered)`
(so ringing time before `answered` is never included and a negative difference
clamps to zero). -/
theorem talk_seconds_spec (c : CallRecord) :
    0 ≤ talk_seconds c ∧
    ((¬ truthy c.answered_at ∨ ¬ truthy c.ended_at ∨
      pyInt c.answered_at = Option.none ∨ pyInt c.ended_at = Option.none) →
      talk_seconds c = 0) ∧
    (∀ a e : Int, truthy c.answered_at → truthy c.ended_at →
      pyInt c.answered_at = Option.some a → pyInt c.ended_at = Option.some e →
      talk_seconds c = max 0 (e - a)) := by
  refine ⟨?_, ?_, ?_⟩
  · unfold talk_seconds
    split
    · exact le_refl 0
    · split
      · exact le_max_left 0 _
      · exact le_refl 0
  · intro h
    unfold talk_seconds
    split
    · rfl
    · rename_i hcond
      push_neg at hcond
      split
      · rename_i a e ha he
        rcases h with h | h | h | h
        · exact absurd hcond.1 h
        · exact absurd hcond.2 h
        · rw [h] at ha; exact absurd ha (by simp)
        · rw [h] at he; exact absurd he (by simp)
      · rfl
  · intro a e ha he hpa hpe
    unfold talk_seconds
    rw [if_neg (by simp [ha, he]), hpa, hpe]

/-- Witness for C4 at concrete records: `answered = 100`, `ended = 70` clamps
to `0 = max 0 (70 - 100)`, and a missing `ended` gives `0`. -/
theorem talk_seconds_spec_witness :
    talk_seconds ⟨Value.int 5, Value.int 100, Value.int 70, Option.some 1, Value.none⟩
      = max 0 ((70 : Int) - 100) ∧
    talk_seconds ⟨Value.int 5, Value.int 100, Value.none, Option.some 1, Value.none⟩ = 0 :=
  ⟨(talk_seconds_spec _).2.2 100 70 (by decide) (by decide) (by decide) (by decide),
   (talk_seconds_spec _).2.1 (Or.inr (Or.inl (by decide)))⟩

/-- Claim C10: a numeric value `0` is treated the same as a missing timestamp,
because presence is tested by truthiness: `answered_at = 0` or `ended_at = 0`
forces talk-seconds `0` whatever the other instant is, and a record whose
`started_at` is `0` is skipped entirely by the aggregation loop. -/
theorem zero_timestamp_is_missing :
    (∀ c : CallRecord, c.answered_at = Value.int 0 → talk_seconds c = 0) ∧
    (∀ c : CallRecord, c.ended_at = Value.int 0 → talk_seconds c = 0) ∧
    (∀ (roster : List Nat) (ws we : Int) (s : Stats) (c : CallRecord),
      c.started_at = Value.int 0 → processCall roster ws we s c = Except.ok s) := by
  refine ⟨?_, ?_, ?_⟩
  · intro c h
    unfold talk_seconds
    rw [if_pos (Or.inl (by simp [h, truthy]))]
  · intro c h
    unfold talk_seconds
    rw [if_pos (Or.inr (by simp [h, truthy]))]
  · intro roster ws we s c h
    unfold processCall
    rw [if_pos (by simp [h, truthy])]

/-- Witness for C10: `answered_at = 0` with `ended_at = 100` (present and
positive) still gives `0`, symmetrically for `ended_at = 0`, and `started_at = 0`
skips the record. -/
theorem zero_timestamp_is_missing_witness :
    talk_seconds ⟨Value.int 5, Value.int 0, Value.int 100, Option.some 1, Value.none⟩ = 0 ∧
    talk_seconds ⟨Value.int 5, Value.int 100, Value.int 0, Option.some 1, Value.none⟩ = 0 ∧
    processCall [1731637] 0 100 (initStats [1731637])
      ⟨Value.int 0, Value.int 1, Value.int 2, Option.some 1731637, Value.str "outbound"⟩
      = Except.ok (initStats [1731637]) :=
  ⟨zero_timestamp_is_missing.1 _ rfl,
   zero_timestamp_is_missing.2.1 _ rfl,
   zero_timestamp_is_missing.2.2 [1731637] 0 100 _ _ rfl⟩

/-- Claim C5: a record whose (parsed) start instant lies strictly before the
window start or strictly after the window end leaves the stats untouched; a
record exactly at either boundary passes the window filter, and if it also
belongs to a roster agent it is accrued to that agent. -/
theorem window_filter_spec (roster : List Nat) (ws we : Int) (s : Stats) (c : CallRecord) :
    (∀ t : Int, pyInt c.started_at = Option.some t → (t < ws ∨ t > we) →
      processCall roster ws we s c = Except.ok s) ∧
    (∀ t : Int, truthy c.started_at → pyInt c.started_at = Option.some t →
      (t = ws ∨ t = we) → ws ≤ we →
      ∀ uid : Nat, c.user_id = Option.some uid → roster.contains uid = true →
      processCall roster ws we s c = Except.ok (updateStats s uid c)) := by
  constructor
  · intro t hpt hout
    unfold processCall
    by_cases hs : truthy c.started_at
    · rw [if_neg (by simp [hs]), hpt]
      simp only []
      rw [if_pos hout]
    · rw [if_pos (by simp [hs])]
  · intro t hs hpt hbound hwin uid huid hmem
    unfold processCall
    rw [if_neg (by simp [hs]), hpt]
    simp only []
    rw [if_neg (by rcases hbound with h | h <;> omega), huid]
    simp only []
    rw [if_neg (not_not_intro hmem)]

/-- Witness for C5: with window `[10, 20]`, a record at `25` is dropped, and a
record exactly at the start boundary `10` for roster agent `7` is accrued. -/
theorem window_filter_spec_witness :
    processCall [7] 10 20 (initStats [7])
      ⟨Value.int 25, Value.int 11, Value.int 13, Option.some 7, Value.str "outbound"⟩
      = Except.ok (initStats [7]) ∧
    processCall [7] 10 20 (initStats [7])
      ⟨Value.int 10, Value.int 11, Value.int 13, Option.some 7, Value.str "outbound"⟩
      = Except.ok (updateStats (initStats [7]) 7
          ⟨Value.int 10, Value.int 11, Value.int 13, Option.some 7, Value.str "outbound"⟩) :=
  ⟨(window_filter_spec [7] 10 20 (initStats [7]) _).1 25 (by decide) (by decide),
   (window_filter_spec [7] 10 20 (initStats [7]) _).2 10 (by decide) (by decide)
     (Or.inl rfl) (by decide) 7 rfl (by decide)⟩

/-- Claim C6: a qualifying record whose direction is neither `"outbound"` nor
`"inbound"` increments neither directional counter, while `total_calls` is
incremented by one for every qualifying record regardless of direction. -/
theorem unknown_direction_spec (roster : List Nat) (ws we : Int) (s : Stats)
    (c : CallRecord) (t : Int) (uid : Nat) (st : AgentStats) :
    truthy c.started_at → pyInt c.started_at = Option.some t → ¬ (t < ws ∨ t > we) →
    c.user_id = Option.some uid → roster.contains uid = true →
    s uid = Option.some st →
    processCall roster ws we s c = Except.ok (updateStats s uid c) ∧
    updateStats s uid c uid = Option.some (accrue c st) ∧
    (accrue c st).total_calls = st.total_calls + 1 ∧
    (c.direction ≠ Value.str "outbound" → c.direction ≠ Value.str "inbound" →
      (accrue c st).outbound = st.outbound ∧ (accrue c st).inbound = st.inbound) := by
  intro hs hpt hwin huid hmem hst
  refine ⟨?_, ?_, ?_, ?_⟩
  · unfold processCall
    rw [if_neg (by simp [hs]), hpt]
    simp only []
    rw [if_neg hwin, huid]
    simp only []
    rw [if_neg (not_not_intro hmem)]
  · unfold updateStats
    rw [if_pos rfl, hst]
    rfl
  · rw [accrue_eq]
  · intro hdo hdi
    rw [accrue_eq]
    simp [dOut, dIn, hdo, hdi]

/-- Witness for C6: a qualifying record with direction `"transfer"` bumps only
`total_calls` (and talk time), leaving both directional counters at zero. -/
theorem unknown_direction_spec_witness :
    processCall [7] 10 20 (initStats [7])
      ⟨Value.int 15, Value.int 16, Value.int 18, Option.some 7, Value.str "transfer"⟩
      = Except.ok (updateStats (initStats [7]) 7
          ⟨Value.int 15, Value.int 16, Value.int 18, Option.some 7, Value.str "transfer"⟩) ∧
    (accrue ⟨Value.int 15, Value.int 16, Value.int 18, Option.some 7, Value.str "transfer"⟩
        zeroStats).total_calls = zeroStats.total_calls + 1 ∧
    (accrue ⟨Value.int 15, Value.int 16, Value.int 18, Option.some 7, Value.str "transfer"⟩
        zeroStats).outbound = zeroStats.outbound ∧
    (accrue ⟨Value.int 15, Value.int 16, Value.int 18, Option.some 7, Value.str "transfer"⟩
        zeroStats).inbound = zeroStats.inbound := by
  have h := unknown_direction_spec [7] 10 20 (initStats [7])
    ⟨Value.int 15, Value.int 16, Value.int 18, Option.some 7, Value.str "transfer"⟩
    15 7 zeroStats (by decide) (by decide) (by decide) rfl (by decide) (by decide)
  exact ⟨h.1, h.2.2.1, (h.2.2.2 (by decide) (by decide)).1, (h.2.2.2 (by decide) (by decide)).2⟩

/-- Counterexample to claim C2: a record whose `started_at` holds the truthy
non-numeric string `"oops"` makes the loop raise — `int(started_at)` at the top
of the loop body is not wrapped in any `try`/`except`, so the run aborts
instead of skipping the record. -/
theorem nonnumeric_start_aborts :
    processCalls [1731637] 0 100 (initStats [1731637])
      [⟨Value.str "oops", Value.none, Value.none, Option.some 1731637, Value.str "outbound"⟩]
      = Except.error "ValueError: invalid literal for int()" := rfl

/-- Claim C2 (amended): a record with a falsy start instant, or with an absent
or non-roster agent id, is skipped silently; any record whose start instant
parses completes without error (in particular non-numeric `answered_at` or
`ended_at` never abort); but a truthy non-numeric start instant raises. -/
theorem record_skip_spec (roster : List Nat) (ws we : Int) (s : Stats) (c : CallRecord) :
    (¬ truthy c.started_at → processCall roster ws we s c = Except.ok s) ∧
    (∀ t : Int, pyInt c.started_at = Option.some t →
      (c.user_id = Option.none ∨
        (∀ uid : Nat, c.user_id = Option.some uid → roster.contains uid = false)) →
      processCall roster ws we s c = Except.ok s) ∧
    (∀ t : Int, pyInt c.started_at = Option.some t →
      ∃ s2 : Stats, processCall roster ws we s c = Except.ok s2) ∧
    (truthy c.started_at → pyInt c.started_at = Option.none →
      processCall roster ws we s c = Except.error "ValueError: invalid literal for int()") := by
  refine ⟨?_, ?_, ?_, ?_⟩
  · intro hs
    unfold processCall
    rw [if_pos hs]
  · intro t hpt huid
    unfold processCall
    by_cases hs : truthy c.started_at
    · rw [if_neg (by simp [hs]), hpt]
      simp only []
      by_cases hw : t < ws ∨ t > we
      · rw [if_pos hw]
      · rw [if_neg hw]
        rcases huid with h | h
        · rw [h]
        · cases hu : c.user_id with
          | none => rfl
          | some uid =>
            simp only []
            rw [if_pos (by rw [h uid hu]; exact Bool.false_ne_true)]
    · rw [if_pos (by simp [hs])]
  · intro t hpt
    unfold processCall
    by_cases hs : truthy c.started_at
    · rw [if_neg (by simp [hs]), hpt]
      simp only []
      by_cases hw : t < ws ∨ t > we
      · exact ⟨s, by rw [if_pos hw]⟩
      · rw [if_neg hw]
        cases hu : c.user_id with
        | none => exact ⟨s, rfl⟩
        | some uid =>
          simp only []
          by_cases hm : roster.contains uid
          · exact ⟨updateStats s uid c, by rw [if_neg (not_not_intro hm)]⟩
          · exact ⟨s, by rw [if_pos hm]⟩
    · exact ⟨s, by rw [if_pos (by simp [hs])]⟩
  · intro hs hpn
    unfold processCall
    rw [if_neg (by simp [hs]), hpn]

/-- Witness for C2 (amended) at concrete records: a falsy start is skipped, an
unknown agent is skipped, a record with non-numeric `answered_at` still
completes, and a truthy non-numeric start raises. -/
theorem record_skip_spec_witness :
    processCall [7] 0 100 (initStats [7])
      ⟨Value.none, Value.int 1, Value.int 2, Option.some 7, Value.none⟩
      = Except.ok (initStats [7]) ∧
    processCall [7] 0 100 (initStats [7])
      ⟨Value.int 50, Value.int 1, Value.int 2, Option.some 8, Value.none⟩
      = Except.ok (initStats [7]) ∧
    (∃ s2 : Stats, processCall [7] 0 100 (initStats [7])
      ⟨Value.int 50, Value.str "abc", Value.int 2, Option.some 7, Value.none⟩
      = Except.ok s2) ∧
    processCall [7] 0 100 (initStats [7])
      ⟨Value.str "oops", Value.int 1, Value.int 2, Option.some 7, Value.none⟩
      = Except.error "ValueError: invalid literal for int()" :=
  ⟨(record_skip_spec [7] 0 100 (initStats [7]) _).1 (by decide),
   (record_skip_spec [7] 0 100 (initStats [7]) _).2.1 50 (by decide)
     (Or.inr (fun uid h => by
        rw [Option.some_inj.mp h.symm] at *
        exact (by cases h; decide))),
   (record_skip_spec [7] 0 100 (initStats [7]) _).2.2.1 50 (by decide),
   (record_skip_spec [7] 0 100 (initStats [7]) _).2.2.2 (by decide) (by decide)⟩

/-- Stable insertion produces a permutation of consing. -/
theorem insDesc_perm {α : Type} (key : α → Int) (x : α) (l : List α) :
    List.Perm (insDesc key x l) (x :: l) := by
  induction l with
  | nil => rfl
  | cons y ys ih =>
    rw [insDesc]
    by_cases h : key y ≤ key x
    · rw [if_pos h]
    · rw [if_neg h]
      exact ((ih.cons y).trans (List.Perm.swap x y ys))

/-- The stable descending sort permutes its input. -/
theorem sortDescBy_perm {α : Type} (key : α → Int) (l : List α) :
    List.Perm (sortDescBy key l) l := by
  induction l with
  | nil => rfl
  | cons x xs ih =>
    exact ((insDesc_perm key x (sortDescBy key xs)).trans (ih.cons x))

/-- Stable insertion preserves descending sortedness. -/
theorem insDesc_pairwise {α : Type} (key : α → Int) (x : α) (l : List α)
    (h : List.Pairwise (fun a b => key b ≤ key a) l) :
    List.Pairwise (fun a b => key b ≤ key a) (insDesc key x l) := by
  induction l with
  | nil => simp [insDesc]
  | cons y ys ih =>
    rw [List.pairwise_cons] at h
    rw [insDesc]
    by_cases hxy : key y ≤ key x
    · rw [if_pos hxy]
      refine List.Pairwise.cons ?_ (List.Pairwise.cons h.1 h.2)
      intro z hz
      rcases List.mem_cons.mp hz with hz | hz
      · rw [hz]; exact hxy
      · exact le_trans (h.1 z hz) hxy
    · rw [if_neg hxy]
      refine List.Pairwise.cons ?_ (ih h.2)
      intro z hz
      rcases List.mem_cons.mp ((insDesc_perm key x ys).mem_iff.mp hz) with hz | hz
      · rw [hz]; exact le_of_lt (lt_of_not_le hxy)
      · exact h.1 z hz

/-- The stable descending sort is sorted: every later element's key is `≤`
every earlier element's key. -/
theorem sortDescBy_pairwise {α : Type} (key : α → Int) (l : List α) :
    List.Pairwise (fun a b => key b ≤ key a) (sortDescBy key l) := by
  induction l with
  | nil => exact List.Pairwise.nil
  | cons x xs ih => exact insDesc_pairwise key x _ ih

/-- Filtering by one key value commutes with stable insertion: the inserted
element lands in front of the equal-key elements already present (it came
earlier in the input), and the rest keep their order. -/
theorem insDesc_filter {α : Type} (key : α → Int) (x : α) (l : List α) (m : Int) :
    (insDesc key x l).filter (fun y => key y == m) =
      if key x == m then x :: l.filter (fun y => key y == m)
      else l.filter (fun y => key y == m) := by
  induction l with
  | nil =>
    by_cases hx : (key x == m) = true <;> simp [insDesc, List.filter_singleton, hx]
  | cons y ys ih =>
    rw [insDesc]
    by_cases hxy : key y ≤ key x
    · rw [if_pos hxy]
      by_cases hx : (key x == m) = true <;> simp [List.filter_cons, hx]
    · rw [if_neg hxy]
      rw [List.filter_cons, List.filter_cons, ih]
      by_cases hx : (key x == m) = true
      · have hym : (key y == m) = false := by
          have hxm : key x = m := by simpa using hx
          have hy : ¬ key y = m := fun hy => hxy (le_of_eq (hy.trans hxm.symm))
          simpa using hy
        simp [hx, hym]
      · simp [hx]

/-- Filtering by one key value commutes with the whole sort (stability). -/
theorem sortDescBy_filter {α : Type} (key : α → Int) (l : List α) (m : Int) :
    (sortDescBy key l).filter (fun y => key y == m) = l.filter (fun y => key y == m) := by
  induction l with
  | nil => rfl
  | cons x xs ih =>
    rw [List.filter_cons]
    by_cases hx : key x == m
    · rw [if_pos hx]
      show (insDesc key x (sortDescBy key xs)).filter _ = _
      rw [insDesc_filter, if_pos hx, ih]
    · rw [if_neg hx]
      show (insDesc key x (sortDescBy key xs)).filter _ = _
      rw [insDesc_filter, if_neg hx, ih]

/-- Counterexample to claim C3: in `aircall_sdr_stats.py` the sort input is
the set `SDR_IDS`, so ties keep the set's iteration order, not roster
declaration order — with all talk totals equal (zero), the ranked output puts
Candice (1731817) before Jeremy (1811979) although the roster declares Jeremy
before Candice. -/
theorem ranking_order_counterexample :
    leaderboardS (fun _ => 0) = [1731817, 1731818, 1811979, 1731822, 1731824, 1731637] ∧
    (SDRS_S.map Agent.id).indexOf 1811979 < (SDRS_S.map Agent.id).indexOf 1731817 ∧
    (leaderboardS (fun _ => 0)).indexOf 1731817 < (leaderboardS (fun _ => 0)).indexOf 1811979 :=
  ⟨rfl, by decide, by decide⟩

/-- Claim C3 (amended): ranking is a stable descending sort by cumulative
talk-seconds in both scripts — each output is a permutation of its sort input
with non-increasing keys, and filtering by any one key value preserves the
input order among equal-key entries.  In the leaderboard script that input is
the roster list, so ties keep roster declaration order; in the stats script it
is the id set's iteration order, which differs from roster declaration order. -/
theorem ranking_stable_sort (talk : Nat → Int) :
    (List.Perm (leaderboardL talk) SDRS_L ∧
     List.Pairwise (fun u v : Agent => talk v.id ≤ talk u.id) (leaderboardL talk) ∧
     ∀ m : Int, (leaderboardL talk).filter (fun u => talk u.id == m)
        = SDRS_L.filter (fun u => talk u.id == m)) ∧
    (List.Perm (leaderboardS talk) SDR_IDS_iterOrder ∧
     List.Pairwise (fun a b : Nat => talk b ≤ talk a) (leaderboardS talk) ∧
     ∀ m : Int, (leaderboardS talk).filter (fun sid => talk sid == m)
        = SDR_IDS_iterOrder.filter (fun sid => talk sid == m)) :=
  ⟨⟨sortDescBy_perm _ _, sortDescBy_pairwise _ _, fun m => sortDescBy_filter _ _ m⟩,
   ⟨sortDescBy_perm _ _, sortDescBy_pairwise _ _, fun m => sortDescBy_filter _ _ m⟩⟩

/-- The fold inside `pyMinBy` returns an element of `x :: xs` whose key is
minimal (Python `min` keeps the first minimum, replacing only on strict `<`). -/
theorem foldlMin_spec {α : Type} (key : α → Int) :
    ∀ (xs : List α) (x : α),
      (xs.foldl (fun acc y => if key y < key acc then y else acc) x ∈ x :: xs) ∧
      ∀ v ∈ x :: xs,
        key (xs.foldl (fun acc y => if key y < key acc then y else acc) x) ≤ key v := by
  intro xs
  induction xs with
  | nil =>
    intro x
    refine ⟨List.mem_cons_self x [], ?_⟩
    intro v hv
    rw [List.mem_singleton.mp hv]
    exact le_refl _
  | cons y ys ih =>
    intro x
    rw [List.foldl_cons]
    by_cases hc : key y < key x
    · rw [if_pos hc]
      obtain ⟨hmem, hle⟩ := ih y
      have hres_le_y := hle y (List.mem_cons_self y ys)
      constructor
      · rcases List.mem_cons.mp hmem with h | h
        · rw [h]
          exact List.mem_cons_of_mem x (List.mem_cons_self y ys)
        · exact List.mem_cons_of_mem x (List.mem_cons_of_mem y h)
      · intro v hv
        rcases List.mem_cons.mp hv with hv | hv
        · rw [hv]
          exact le_trans hres_le_y (le_of_lt hc)
        · rcases List.mem_cons.mp hv with hv | hv
          · rw [hv]
            exact hres_le_y
          · exact hle v (List.mem_cons_of_mem y hv)
    · rw [if_neg hc]
      obtain ⟨hmem, hle⟩ := ih x
      have hres_le_x := hle x (List.mem_cons_self x ys)
      constructor
      · rcases List.mem_cons.mp hmem with h | h
        · rw [h]
          exact List.mem_cons_self x (y :: ys)
        · exact List.mem_cons_of_mem x (List.mem_cons_of_mem y h)
      · intro v hv
        rcases List.mem_cons.mp hv with hv | hv
        · rw [hv]
          exact hres_le_x
        · rcases List.mem_cons.mp hv with hv | hv
          · rw [hv]
            exact le_trans hres_le_x (le_of_not_lt hc)
          · exact hle v (List.mem_cons_of_mem x hv)

/-- Applying `pyMinBy` to a non-empty list returns a minimal element of it. -/
theorem pyMinBy_spec {α : Type} (key : α → Int) (l : List α) (u : α)
    (h : pyMinBy key l = Option.some u) :
    u ∈ l ∧ ∀ v ∈ l, key u ≤ key v := by
  cases l with
  | nil => exact absurd h (by simp [pyMinBy])
  | cons x xs =>
    have hu : u = xs.foldl (fun acc y => if key y < key acc then y else acc) x := by
      have := h
      rw [pyMinBy] at this
      exact (Option.some_inj.mp this).symm
    obtain ⟨hmem, hle⟩ := foldlMin_spec key xs x
    rw [hu]
    exact ⟨hmem, hle⟩

/-- Function `pyMinBy` returns `None` exactly on the empty list. -/
theorem pyMinBy_eq_none {α : Type} (key : α → Int) (l : List α) :
    pyMinBy key l = Option.none ↔ l = [] := by
  cases l with
  | nil => simp [pyMinBy]
  | cons x xs => simp [pyMinBy]

/-- In a list sorted descending by key, the last element has minimal key. -/
theorem getLast_pairwise_min {α : Type} (key : α → Int) :
    ∀ (l : List α) (u : α), List.Pairwise (fun a b => key b ≤ key a) l →
      l.getLast? = Option.some u → ∀ v ∈ l, key u ≤ key v := by
  intro l
  induction l with
  | nil => intro u _ h; exact absurd h (by simp)
  | cons x xs ih =>
    intro u hp hl v hv
    rw [List.pairwise_cons] at hp
    cases xs with
    | nil =>
      have hux : x = u := by simpa using hl
      have hvx : v = x := by simpa using hv
      rw [hvx, ← hux]
    | cons y ys =>
      have hl2 : (y :: ys).getLast? = Option.some u := by
        rw [List.getLast?_cons_cons] at hl
        exact hl
      have hu_mem : u ∈ y :: ys := by
        obtain ⟨hne, hequ⟩ := List.mem_getLast?_eq_getLast (Option.mem_def.mpr hl2)
        rw [hequ]
        exact List.getLast_mem hne
      rcases List.mem_cons.mp hv with hv | hv
      · rw [hv]
        exact hp.1 u hu_mem
      · exact ih u hp.2 hl2 v hv

/-- Counterexample to claim C1: with every roster agent at zero outbound calls
the claim says no entry is flagged, but the sad-face selection in `main` has no
outbound-activity threshold — it still flags agent `1731822` (Steve), the last
non-exempt agent of the leaderboard. -/
theorem attention_counterexample :
    (SDRS_L.all fun u => (fun _ : Nat => (0 : Nat)) u.id == 0) = true ∧
    sadFaceId (fun _ => 0) = Option.some 1731822 := by
  exact ⟨by decide, rfl⟩

/-- Claim C1 (amended): the commentary attention target
(`pick_lowest_with_dials_gt_zero`) is an agent of the leaderboard that is
non-exempt, has outbound count `> 0`, and has minimal talk-seconds among all
such agents, and it is `None` exactly when every agent is exempt or has zero
outbound calls; the sad-face decoration of `main`, by contrast, applies no
outbound threshold — whenever it flags an id, that id is non-exempt and is a
roster agent with minimal talk-seconds among the non-exempt agents. -/
theorem attention_rule_amended (lb : List Agent) (talk talkL : Nat → Int)
    (out : Nat → Nat) (exempt : List Nat) :
    (∀ u : Agent, pickLowestAgent lb talk out exempt = Option.some u →
      u ∈ lb ∧ exempt.contains u.id = false ∧ 0 < out u.id ∧
      ∀ v ∈ lb, exempt.contains v.id = false → 0 < out v.id → talk u.id ≤ talk v.id) ∧
    (pickLowestAgent lb talk out exempt = Option.none ↔
      ∀ v ∈ lb, exempt.contains v.id = true ∨ out v.id = 0) ∧
    (∀ sid : Nat, sadFaceId talkL = Option.some sid →
      SAD_FACE_EXEMPT_IDS.contains sid = false ∧
      ∃ u ∈ SDRS_L, u.id = sid ∧
        ∀ v ∈ SDRS_L, SAD_FACE_EXEMPT_IDS.contains v.id = false →
          talkL sid ≤ talkL v.id) := by
  refine ⟨?_, ?_, ?_⟩
  · intro u hu
    simp only [pickLowestAgent] at hu
    obtain ⟨humem, hule⟩ := pyMinBy_spec (fun u => talk u.id) _ u hu
    obtain ⟨hulb, hup⟩ := List.mem_filter.mp humem
    simp only [decide_eq_true_eq] at hup
    refine ⟨hulb, Bool.eq_false_iff.mpr hup.1, hup.2, ?_⟩
    intro v hv hvex hvout
    refine hule v (List.mem_filter.mpr ⟨hv, ?_⟩)
    simp only [decide_eq_true_eq]
    exact ⟨by rw [hvex]; exact Bool.false_ne_true, hvout⟩
  · simp only [pickLowestAgent]
    rw [pyMinBy_eq_none, List.filter_eq_nil_iff]
    constructor
    · intro h v hv
      have := h v hv
      simp only [decide_eq_true_eq, not_and, not_lt, Nat.le_zero] at this
      by_cases hc : exempt.contains v.id = true
      · exact Or.inl hc
      · exact Or.inr (this hc)
    · intro h v hv
      simp only [decide_eq_true_eq, not_and, not_lt, Nat.le_zero]
      intro hnc
      rcases h v hv with hc | hc
      · exact absurd hc hnc
      · exact hc
  · intro sid hsid
    obtain ⟨u, hul, huid⟩ := Option.map_eq_some'.mp hsid
    have humem : u ∈ eligibleL talkL := by
      obtain ⟨hne, hequ⟩ := List.mem_getLast?_eq_getLast (Option.mem_def.mpr hul)
      rw [hequ]
      exact List.getLast_mem hne
    obtain ⟨hulb, hup⟩ := List.mem_filter.mp humem
    simp only [decide_eq_true_eq] at hup
    have hpair : List.Pairwise (fun a b : Agent => talkL b.id ≤ talkL a.id) (eligibleL talkL) :=
      (sortDescBy_pairwise (fun u => talkL u.id) SDRS_L).filter _
    have hmin := getLast_pairwise_min (fun u => talkL u.id) (eligibleL talkL) u hpair hul
    have hperm : List.Perm (leaderboardL talkL) SDRS_L := by
      unfold leaderboardL
      exact sortDescBy_perm _ _
    refine ⟨by rw [← huid]; exact Bool.eq_false_iff.mpr hup, ?_⟩
    refine ⟨u, hperm.mem_iff.mp hulb, huid, ?_⟩
    intro v hv hvex
    have hvmem : v ∈ eligibleL talkL := by
      refine List.mem_filter.mpr ⟨hperm.mem_iff.mpr hv, ?_⟩
      simp only [decide_eq_true_eq]
      rw [hvex]
      exact Bool.false_ne_true
    rw [← huid]
    exact hmin v hvmem

/-- Witness for C1 (amended): with Jeremy at 10 talk-seconds, everyone else at
50, and one outbound call each, `pick_lowest_with_dials_gt_zero` selects Jeremy
(id 1811979), non-exempt with positive outbound; the sad-face also lands on the
non-exempt Jeremy. -/
theorem attention_rule_amended_witness :
    ((⟨1811979, "Jeremy"⟩ : Agent) ∈
        leaderboardL (fun sid => if sid = 1811979 then 10 else 50) ∧
      SAD_FACE_EXEMPT_IDS.contains 1811979 = false ∧
      0 < (fun _ : Nat => 1) 1811979) ∧
    SAD_FACE_EXEMPT_IDS.contains 1811979 = false :=
  have h := attention_rule_amended
    (leaderboardL (fun sid => if sid = 1811979 then 10 else 50))
    (fun sid => if sid = 1811979 then 10 else 50)
    (fun sid => if sid = 1811979 then 10 else 50)
    (fun _ => 1) SAD_FACE_EXEMPT_IDS
  have h1 := h.1 ⟨1811979, "Jeremy"⟩ (by decide)
  have h3 := h.2.2 1811979 (by decide)
  ⟨⟨h1.1, h1.2.1, h1.2.2.1⟩, h3.1⟩

/-- On a record that does not abort, one loop iteration is the pure step. -/
theorem processCall_of_not_bad (roster : List Nat) (ws we : Int) (s : Stats) (c : CallRecord)
    (h : badStart c = false) :
    processCall roster ws we s c = Except.ok (pureStep roster ws we s c) := by
  unfold processCall pureStep qualUid
  by_cases hs : truthy c.started_at
  · cases hp : pyInt c.started_at with
    | none =>
      exact absurd h (by simp [badStart, hs, hp])
    | some t =>
      rw [if_neg (by simp [hs]), if_neg (by simp [hs])]
      simp only []
      by_cases hw : t < ws ∨ t > we
      · rw [if_pos hw, if_pos hw]
      · rw [if_neg hw, if_neg hw]
        cases hu : c.user_id with
        | none => rfl
        | some uid =>
          simp only []
          by_cases hm : roster.contains uid
          · rw [if_neg (not_not_intro hm), if_neg (not_not_intro hm)]
          · rw [if_pos hm, if_pos hm]
  · rw [if_pos (by simp [hs]), if_pos (by simp [hs])]

/-- On a record with a truthy non-numeric start, one loop iteration raises. -/
theorem processCall_of_bad (roster : List Nat) (ws we : Int) (s : Stats) (c : CallRecord)
    (h : badStart c = true) :
    processCall roster ws we s c = Except.error "ValueError: invalid literal for int()" := by
  rw [badStart, Bool.and_eq_true, Option.isNone_iff_eq_none] at h
  unfold processCall
  rw [if_neg (by simp [h.1]), h.2]

/-- The page loop either hits a bad record somewhere (and raises) or folds the
pure step over the whole list. -/
theorem processCalls_char (roster : List Nat) (ws we : Int) :
    ∀ (l : List CallRecord) (s : Stats),
      processCalls roster ws we s l =
        if l.any badStart then Except.error "ValueError: invalid literal for int()"
        else Except.ok (l.foldl (pureStep roster ws we) s) := by
  intro l
  induction l with
  | nil => intro s; rfl
  | cons c cs ih =>
    intro s
    rw [processCalls]
    cases hb : badStart c with
    | true =>
      rw [processCall_of_bad roster ws we s c hb]
      rw [List.any_cons, hb]
      rfl
    | false =>
      rw [processCall_of_not_bad roster ws we s c hb]
      simp only []
      rw [List.any_cons, hb, ih]
      rfl

/-- Accumulation commutes record-by-record: the delta each record adds depends
only on the record. -/
theorem accrue_comm (c1 c2 : CallRecord) (st : AgentStats) :
    accrue c2 (accrue c1 st) = accrue c1 (accrue c2 st) := by
  obtain ⟨o, i, tc, ts⟩ := st
  simp [accrue_eq, AgentStats.mk.injEq]
  omega

/-- Dictionary updates for two records commute. -/
theorem updateStats_comm (s : Stats) (u1 u2 : Nat) (c1 c2 : CallRecord) :
    updateStats (updateStats s u1 c1) u2 c2 = updateStats (updateStats s u2 c2) u1 c1 := by
  funext sid
  unfold updateStats
  by_cases h2 : sid = u2 <;> by_cases h1 : sid = u1
  · rw [if_pos h2, if_pos h1, if_pos h1, if_pos h2, Option.map_map, Option.map_map]
    exact congrFun (congrArg Option.map (funext fun st => accrue_comm c1 c2 st)) (s sid)
  · rw [if_pos h2, if_neg h1, if_neg h1, if_pos h2]
  · rw [if_neg h2, if_pos h1, if_pos h1, if_neg h2]
  · rw [if_neg h2, if_neg h1, if_neg h1, if_neg h2]

/-- The pure step for two records commutes. -/
theorem pureStep_comm (roster : List Nat) (ws we : Int) (s : Stats) (c1 c2 : CallRecord) :
    pureStep roster ws we (pureStep roster ws we s c1) c2 =
      pureStep roster ws we (pureStep roster ws we s c2) c1 := by
  unfold pureStep
  cases hq1 : qualUid roster ws we c1 with
  | none => cases hq2 : qualUid roster ws we c2 with
    | none => rfl
    | some u2 => rfl
  | some u1 => cases hq2 : qualUid roster ws we c2 with
    | none => rfl
    | some u2 => exact updateStats_comm s u1 u2 c1 c2

/-- Folding the pure step is invariant under permutation of the records. -/
theorem foldl_pureStep_perm (roster : List Nat) (ws we : Int)
    {l1 l2 : List CallRecord} (h : List.Perm l1 l2) :
    ∀ s : Stats, l1.foldl (pureStep roster ws we) s = l2.foldl (pureStep roster ws we) s := by
  induction h with
  | nil => intro s; rfl
  | cons x _ ih =>
    intro s
    rw [List.foldl_cons, List.foldl_cons]
    exact ih _
  | swap x y l =>
    intro s
    rw [List.foldl_cons, List.foldl_cons, List.foldl_cons, List.foldl_cons,
      pureStep_comm]
  | trans _ _ ih1 ih2 =>
    intro s
    rw [ih1 s, ih2 s]

/-- Predicate aggregation `List.any` is invariant under permutation. -/
theorem any_perm {α : Type} {l1 l2 : List α} (h : List.Perm l1 l2) (p : α → Bool) :
    l1.any p = l2.any p := by
  cases hb : l2.any p with
  | true =>
    obtain ⟨x, hx, hpx⟩ := List.any_eq_true.mp hb
    exact List.any_eq_true.mpr ⟨x, h.mem_iff.mpr hx, hpx⟩
  | false =>
    rw [List.any_eq_false] at hb ⊢
    intro x hx
    exact hb x (h.mem_iff.mp hx)

/-- Running `processCalls` over an appended list runs the two halves in sequence. -/
theorem processCalls_append (roster : List Nat) (ws we : Int) :
    ∀ (l1 l2 : List CallRecord) (s : Stats),
      processCalls roster ws we s (l1 ++ l2) =
        match processCalls roster ws we s l1 with
        | Except.error e => Except.error e
        | Except.ok s2 => processCalls roster ws we s2 l2 := by
  intro l1
  induction l1 with
  | nil => intro l2 s; rfl
  | cons c cs ih =>
    intro l2 s
    rw [List.cons_append, processCalls, processCalls]
    cases processCall roster ws we s c with
    | error e => rfl
    | ok s2 => exact ih l2 s2

/-- When no page is empty, the pagination loop consumes exactly the
concatenation of the pages. -/
theorem processPages_eq_processCalls (roster : List Nat) (ws we : Int) :
    ∀ (ps : List (List CallRecord)) (s : Stats), (∀ p ∈ ps, p ≠ []) →
      processPages roster ws we s ps = processCalls roster ws we s ps.flatten := by
  intro ps
  induction ps with
  | nil => intro s _; rfl
  | cons p ps ih =>
    intro s hne
    rw [processPages, List.flatten_cons, processCalls_append]
    rw [if_neg (by simp [List.isEmpty_iff, hne p (List.mem_cons_self p ps)])]
    cases processCalls roster ws we s p with
    | error e => rfl
    | ok s2 => exact ih s2 (fun q hq => hne q (List.mem_cons_of_mem p hq))

/-- Claim C7: aggregation is invariant under repartitioning — for a fixed
window and roster, delivering the same records split into (non-empty) pages of
any sizes and in any order yields the same outcome, because per-record
accumulation commutes and depends only on the record. -/
theorem pagination_invariance (roster : List Nat) (ws we : Int) (s : Stats)
    (ps1 ps2 : List (List CallRecord))
    (h1 : ∀ p ∈ ps1, p ≠ []) (h2 : ∀ p ∈ ps2, p ≠ [])
    (hp : List.Perm ps1.flatten ps2.flatten) :
    processPages roster ws we s ps1 = processPages roster ws we s ps2 := by
  rw [processPages_eq_processCalls roster ws we ps1 s h1,
    processPages_eq_processCalls roster ws we ps2 s h2,
    processCalls_char, processCalls_char, any_perm hp badStart,
    foldl_pureStep_perm roster ws we hp s]

/-- Witness for C7: one page `[cA, cB]` versus the two pages `[cB]`, `[cA]`
give the same final stats. -/
theorem pagination_invariance_witness :
    processPages [7] 0 100 (initStats [7])
      [[⟨Value.int 10, Value.int 11, Value.int 20, Option.some 7, Value.str "outbound"⟩,
        ⟨Value.int 30, Value.int 31, Value.int 45, Option.some 7, Value.str "inbound"⟩]] =
    processPages [7] 0 100 (initStats [7])
      [[⟨Value.int 30, Value.int 31, Value.int 45, Option.some 7, Value.str "inbound"⟩],
       [⟨Value.int 10, Value.int 11, Value.int 20, Option.some 7, Value.str "outbound"⟩]] :=
  pagination_invariance [7] 0 100 (initStats [7])
    [[⟨Value.int 10, Value.int 11, Value.int 20, Option.some 7, Value.str "outbound"⟩,
      ⟨Value.int 30, Value.int 31, Value.int 45, Option.some 7, Value.str "inbound"⟩]]
    [[⟨Value.int 30, Value.int 31, Value.int 45, Option.some 7, Value.str "inbound"⟩],
     [⟨Value.int 10, Value.int 11, Value.int 20, Option.some 7, Value.str "outbound"⟩]]
    (by decide) (by decide)
    (by
      show List.Perm
        ([⟨Value.int 10, Value.int 11, Value.int 20, Option.some 7, Value.str "outbound"⟩,
          ⟨Value.int 30, Value.int 31, Value.int 45, Option.some 7, Value.str "inbound"⟩] :
            List CallRecord)
        ([⟨Value.int 30, Value.int 31, Value.int 45, Option.some 7, Value.str "inbound"⟩,
          ⟨Value.int 10, Value.int 11, Value.int 20, Option.some 7, Value.str "outbound"⟩] :
            List CallRecord)
      exact List.Perm.swap _ _ [])

/-- The pure step never adds or removes a stats-dictionary entry. -/
theorem pureStep_isSome (roster : List Nat) (ws we : Int) (s : Stats) (c : CallRecord)
    (sid : Nat) : ((pureStep roster ws we s c) sid).isSome = (s sid).isSome := by
  unfold pureStep
  cases qualUid roster ws we c with
  | none => rfl
  | some uid =>
    simp only []
    unfold updateStats
    by_cases h : sid = uid
    · rw [if_pos h]
      cases s sid <;> rfl
    · rw [if_neg h]

/-- Folding the pure step never adds or removes a stats-dictionary entry. -/
theorem foldl_pureStep_isSome (roster : List Nat) (ws we : Int) :
    ∀ (l : List CallRecord) (s : Stats) (sid : Nat),
      ((l.foldl (pureStep roster ws we) s) sid).isSome = (s sid).isSome := by
  intro l
  induction l with
  | nil => intro s sid; rfl
  | cons c cs ih =>
    intro s sid
    rw [List.foldl_cons, ih, pureStep_isSome]

/-- A record that does not contribute to `sid` leaves the entry of `sid`
untouched. -/
theorem pureStep_untouched (roster : List Nat) (ws we : Int) (s : Stats) (c : CallRecord)
    (sid : Nat) (h : contributesTo roster ws we c sid = false) :
    pureStep roster ws we s c sid = s sid := by
  unfold contributesTo at h
  unfold pureStep
  cases hq : qualUid roster ws we c with
  | none => rfl
  | some uid =>
    rw [hq] at h
    have huid : ¬ uid = sid := by
      intro he
      rw [he] at h
      simp at h
    simp only []
    unfold updateStats
    rw [if_neg (fun he : sid = uid => huid he.symm)]

/-- Records that do not contribute to `sid` leave the entry of `sid`
untouched, collectively. -/
theorem foldl_pureStep_untouched (roster : List Nat) (ws we : Int) :
    ∀ (l : List CallRecord) (s : Stats) (sid : Nat),
      (∀ c ∈ l, contributesTo roster ws we c sid = false) →
      (l.foldl (pureStep roster ws we) s) sid = s sid := by
  intro l
  induction l with
  | nil => intro s sid _; rfl
  | cons c cs ih =>
    intro s sid h
    rw [List.foldl_cons, ih _ sid (fun d hd => h d (List.mem_cons_of_mem c hd)),
      pureStep_untouched roster ws we s c sid (h c (List.mem_cons_self c cs))]

/-- Claim C8: after a successful aggregation run the stats dictionary is total
and fixed over the roster — an entry exists for an id exactly when it is a
roster id, and a roster agent to whom no record contributes keeps the
zero-valued accumulator rather than losing its entry. -/
theorem roster_totality (roster : List Nat) (ws we : Int) (l : List CallRecord) (s2 : Stats)
    (h : processCalls roster ws we (initStats roster) l = Except.ok s2) :
    (∀ sid : Nat, (s2 sid).isSome = roster.contains sid) ∧
    (∀ sid : Nat, roster.contains sid = true →
      (∀ c ∈ l, contributesTo roster ws we c sid = false) →
      s2 sid = Option.some zeroStats) := by
  rw [processCalls_char] at h
  by_cases hb : l.any badStart
  · rw [if_pos hb] at h
    exact absurd h (by simp)
  · rw [if_neg hb] at h
    have hs2 : l.foldl (pureStep roster ws we) (initStats roster) = s2 := by
      injection h
    constructor
    · intro sid
      rw [← hs2, foldl_pureStep_isSome]
      unfold initStats
      by_cases hc : roster.contains sid
      · rw [if_pos hc, hc]
        rfl
      · rw [if_neg hc, Bool.eq_false_iff.mpr hc]
        rfl
    · intro sid hmem huntouched
      rw [← hs2, foldl_pureStep_untouched roster ws we l (initStats roster) sid huntouched]
      unfold initStats
      rw [if_pos hmem]

/-- Witness for C8: roster `[5, 9]`, one record contributing to agent `5`:
agent `9` keeps an entry and it is still zero-valued. -/
theorem roster_totality_witness :
    ((updateStats (initStats [5, 9]) 5
        ⟨Value.int 50, Value.int 51, Value.int 60, Option.some 5, Value.str "outbound"⟩) 9).isSome
      = ([5, 9].contains 9) ∧
    (updateStats (initStats [5, 9]) 5
        ⟨Value.int 50, Value.int 51, Value.int 60, Option.some 5, Value.str "outbound"⟩) 9
      = Option.some zeroStats :=
  have h := roster_totality [5, 9] 0 100
    [⟨Value.int 50, Value.int 51, Value.int 60, Option.some 5, Value.str "outbound"⟩]
    (updateStats (initStats [5, 9]) 5
      ⟨Value.int 50, Value.int 51, Value.int 60, Option.some 5, Value.str "outbound"⟩) rfl
  ⟨h.1 9, h.2 9 (by decide) (by decide)⟩

/-- Counterexample to claim C9: at all-zero stats the posted report is exactly
header, blank separator, and the seven ranked entry lines — its last element is
the entry line of the last-ranked agent, not a trailing commentary line
(`main` never calls `coaching_line`), and no unranked section exists. -/
theorem report_no_commentary :
    renderLines (fun _ => ⟨0, 0, 0⟩) "Mon 01 Jan" "9:00am" =
      ["<!channel> this is the current talk time stats so far today (Brisbane day) · Mon 01 Jan · up to 9:00am (Brisbane) · LEADERBOARD_V3",
       "",
       "*Jeremy 🥇 : 0 (mins) | 0 outbound | 0 inbound calls*",
       "*Dale 🥈 : 0 (mins) | 0 outbound | 0 inbound calls*",
       "*Ryan 🥉 : 0 (mins) | 0 outbound | 0 inbound calls*",
       "Candice  : 0 (mins) | 0 outbound | 0 inbound calls",
       "Marcia  : 0 (mins) | 0 outbound | 0 inbound calls",
       "_Steve  : 0 (mins) | 0 outbound | 0 inbound calls 😢_",
       "Jake (UK)  : 0 (mins) | 0 outbound | 0 inbound calls"] ∧
    (renderLines (fun _ => ⟨0, 0, 0⟩) "Mon 01 Jan" "9:00am").getLast?
      = Option.some
          (entryLine (fun _ => ⟨0, 0, 0⟩) (Option.some 1731822) 6 ⟨1731823, "Jake (UK)"⟩) := by
  exact ⟨by decide, by decide⟩

/-- Claim C9 (amended): the report consists, in order, of the header line
naming the window, a blank separator, and one entry line per ranked agent in
leaderboard order — nothing else: no unranked section (every roster agent is
ranked) and no trailing commentary line. -/
theorem report_structure (stats : Nat → LStats) (d u : String) :
    (renderLines stats d u).length = SDRS_L.length + 2 ∧
    (renderLines stats d u).head? = Option.some (headerLine d u) ∧
    (renderLines stats d u)[1]? = Option.some "" ∧
    ∀ (i : Nat) (v : Agent),
      (leaderboardL (fun sid => (stats sid).talk_s_total))[i]? = Option.some v →
      (renderLines stats d u)[i + 2]? =
        Option.some
          (entryLine stats (sadFaceId (fun sid => (stats sid).talk_s_total)) i v) := by
  refine ⟨?_, rfl, ?_, ?_⟩
  · show (headerLine d u :: "" :: _).length = _
    rw [List.length_cons, List.length_cons, List.length_map, List.enum_length]
    have hlen : (leaderboardL (fun sid => (stats sid).talk_s_total)).length = SDRS_L.length := by
      unfold leaderboardL
      exact (sortDescBy_perm _ _).length_eq
    omega
  · show (headerLine d u :: "" :: _)[1]? = _
    rw [List.getElem?_cons_succ, List.getElem?_cons_zero]
  · intro i v hv
    show (headerLine d u :: "" :: _)[i + 2]? = _
    rw [List.getElem?_cons_succ, List.getElem?_cons_succ, List.getElem?_map,
      List.getElem?_enum, hv]
    rfl

/-- Witness for C9 (amended): at all-zero stats, index 0 of the leaderboard is
Jeremy and line 2 of the report is his bold gold-medal entry line. -/
theorem report_structure_witness :
    (renderLines (fun _ => ⟨0, 0, 0⟩) "Mon 01 Jan" "9:00am")[0 + 2]? =
      Option.some
        (entryLine (fun _ => ⟨0, 0, 0⟩)
          (sadFaceId (fun sid => ((fun _ : Nat => (⟨0, 0, 0⟩ : LStats)) sid).talk_s_total)) 0
          ⟨1811979, "Jeremy"⟩) :=
  (report_structure (fun _ => ⟨0, 0, 0⟩) "Mon 01 Jan" "9:00am").2.2.2 0
    ⟨1811979, "Jeremy"⟩ (by decide)

end Aircall
